import Mathlib

/-!
Shallow embedding of the go-museum recurring-task scheduler (package
`scheduler`): `Task`, `TaskSchedule`, the `Scheduler` ledger with its two
background sweep loops (dispatch and retirement), and the worker dequeue
handler produced by `Scheduler.Worker`.

Modelling conventions:
* `time.Time` values are `Int` nanoseconds since the epoch; the Go zero
  value is `0`.  `time.Duration` values are `Nat` nanoseconds.
* The external recurrence-rule library (`rrule.StrToRRule` from
  `teambition/rrule-go`) is opaque to this repository; it is modelled as
  an explicit argument `parse : String → Option RRule`, `none` being a
  parse failure.  `RRule` exposes exactly the three operations the
  scheduler calls: `Options.Count`, `GetUntil`, and `Before`.
* The capacity-one lock channel of a `Task` is modelled by the number of
  buffered tokens (`Nat`), with non-blocking send/receive mirroring the
  `select`/`default` blocks in the source.
* The concurrent scheduler is modelled as an executable small-step state
  machine (`step`): each action is one atomic slice of a sweep loop or of
  an in-flight dispatch unit of work, and `run` folds an arbitrary
  interleaving (a list of actions) from the freshly constructed state.
-/

namespace Museum

/-- Model of a parsed recurrence rule (`rrule.RRule`): `count` is
`Options.Count` (total occurrence cap, `0` meaning unbounded), `untilTime`
is `GetUntil()` (series end time), and `before t inc` is
`Before(t, inc)` (latest occurrence at-or-before `t`). -/
structure RRule where
  count : Int
  untilTime : Int
  before : Int → Bool → Int

/-- Model of `rrule.StrToRRule`: `none` is a parse failure. -/
abbrev RecurrenceParse := String → Option RRule

/-- The `TaskSchedule` struct: recurrence rule string, number of times the
task has been scheduled, and the time of the last successful scheduling. -/
structure TaskSchedule where
  Recurrence : String
  Count : Int
  UpdatedAt : Int
deriving DecidableEq

/-- The `Task` struct: identity, owned schedule, and the capacity-one lock
channel `lock chan struct{}`, modelled by its number of buffered tokens. -/
structure Task where
  Id : String
  Schedule : TaskSchedule
  lock : Nat
deriving DecidableEq

/-- Non-blocking receive from a capacity-one channel holding `n` tokens:
the `select` with a `default` arm in `Task.Lock`.  Returns whether a token
was received together with the new buffer contents. -/
def chanTryRecv (n : Nat) : Bool × Nat :=
  if 0 < n then (true, n - 1) else (false, n)

/-- Non-blocking send onto a capacity-one channel holding `n` tokens: the
`select` with a `default` arm in `Task.Unlock`.  A full buffer drops the
send. -/
def chanTrySend (n : Nat) : Nat :=
  if n < 1 then n + 1 else n

/-- `Task.Lock`: try to take the token without blocking; true iff a token
was present. -/
def Task.Lock (t : Task) : Bool × Task :=
  ((chanTryRecv t.lock).1, { t with lock := (chanTryRecv t.lock).2 })

/-- `Task.Unlock`: try to put the token back without blocking; when the
slot is already occupied the insertion is silently dropped. -/
def Task.Unlock (t : Task) : Task :=
  { t with lock := chanTrySend t.lock }

/-- `NewTask`: a task with the zero-valued schedule and an empty
capacity-one lock channel, followed by the constructor's `t.Unlock()`
which deposits the token. -/
def NewTask (id : String) : Task :=
  Task.Unlock
    { Id := id
      Schedule := { Recurrence := "", Count := 0, UpdatedAt := 0 }
      lock := 0 }

/-- A sequence of `Lock`/`Unlock` calls against a task. -/
inductive LockOp where
  | lock
  | unlock
deriving DecidableEq

/-- Replay a sequence of `Lock`/`Unlock` calls on a task. -/
def lockRun (t : Task) : List LockOp → Task
  | [] => t
  | LockOp.lock :: ops => lockRun (Task.Lock t).2 ops
  | LockOp.unlock :: ops => lockRun (Task.Unlock t) ops

/-- `Task.CanSchedule(now)`: one-shot tasks are schedulable while never
dispatched; a parsed rule forbids scheduling past its occurrence cap or
series end, and requires a fresh occurrence strictly between `UpdatedAt`
and `now`; an unparsable rule fails closed. -/
def CanSchedule (parse : RecurrenceParse) (s : TaskSchedule) (now : Int) : Bool :=
  if s.Recurrence = "" then
    decide (s.Count = 0)
  else
    match parse s.Recurrence with
    | some rule =>
      if rule.count ≠ 0 ∧ rule.count ≤ s.Count then false
      else if rule.untilTime < now then false
      else if rule.before now true = rule.before s.UpdatedAt true then false
      else true
    | none => false

/-- `Task.IsComplete()` evaluated with `time.Now() = now`: a one-shot task
is complete once dispatched; a parsed rule is complete at its occurrence
cap or past its series end; an unparsable rule fails open (complete). -/
def IsComplete (parse : RecurrenceParse) (s : TaskSchedule) (now : Int) : Bool :=
  if s.Recurrence = "" then
    decide (s.Count ≠ 0)
  else
    match parse s.Recurrence with
    | some rule =>
      if rule.count ≠ 0 ∧ rule.count ≤ s.Count then true
      else if rule.untilTime < now then true
      else false
    | none => true

/-- `Task.MarkScheduled(at)`: increment the occurrence count and stamp the
update time. -/
def MarkScheduled (s : TaskSchedule) (t : Int) : TaskSchedule :=
  { s with Count := s.Count + 1, UpdatedAt := t }

/-- The error class returned by `Task.SetRecurrence` on a parse failure
(`errors.BadRequest`). -/
inductive SchedError where
  | badRequest
deriving DecidableEq

/-- `Task.SetRecurrence(rfc)`: parse the rule string; on failure return a
bad-request error leaving the schedule untouched; on success replace only
the recurrence string. -/
def SetRecurrence (parse : RecurrenceParse) (s : TaskSchedule) (rfc : String) :
    TaskSchedule × Option SchedError :=
  match parse rfc with
  | none => (s, some SchedError.badRequest)
  | some _ => ({ s with Recurrence := rfc }, none)

/-- `DefaultInterval = time.Millisecond`, in nanoseconds. -/
def DefaultInterval : Nat := 1000000

/-- `DefaultEnqueueTimeout = 10 * time.Millisecond`, in nanoseconds. -/
def DefaultEnqueueTimeout : Nat := 10000000

/-- `DefaultDequeueTimeout = 10 * time.Millisecond`, in nanoseconds. -/
def DefaultDequeueTimeout : Nat := 10000000

/-- The configuration surface of the `Scheduler` struct set by `New`; the
runtime fields (ledger, completed relay, stop channel) live in
`SchedState` below. -/
structure Scheduler (Q : Type) where
  queue : Q
  interval : Nat
  enqueueTimeout : Nat
  dequeueTimeout : Nat

/-- `New(queue)`: a scheduler with the three default durations. -/
def New {Q : Type} (queue : Q) : Scheduler Q :=
  { queue := queue
    interval := DefaultInterval
    enqueueTimeout := DefaultEnqueueTimeout
    dequeueTimeout := DefaultDequeueTimeout }

/-! ## The ledger registration (`Scheduler.Add`)

The ledger map `tasks map[string]*Task` is modelled for registration as an
association list so that its size is observable; membership is keyed
lookup. -/

/-- One iteration of the loop in `Scheduler.Add`: skip an empty id, skip
an id already present in the ledger, otherwise insert the task under its
id. -/
def addTask (ledger : List (String × Task)) (t : Task) : List (String × Task) :=
  if t.Id = "" then ledger
  else if (ledger.lookup t.Id).isSome then ledger
  else (t.Id, t) :: ledger

/-- `Scheduler.Add(tasks...)`: fold the registration loop over the
variadic argument list. -/
def Add (tasks : List Task) (ledger : List (String × Task)) : List (String × Task) :=
  tasks.foldl addTask ledger

/-! ## The worker dequeue handler (`Scheduler.Worker`)

The handler loops on `Dequeue`; the queue's behaviour is modelled as the
list of results successive `Dequeue` calls return.  Fatality of an error
(`errors.IsFatal`) is opaque and carried as a boolean on the result. -/

/-- A message dequeued from the queue: identity, the result of decoding
its payload into a `Task` (`none` is a decode failure), and whether its
acknowledgement fails. -/
structure Msg where
  id : String
  decoded : Option Task
  ackErr : Bool
deriving DecidableEq

/-- The outcome of one `Dequeue` call. -/
inductive DeqResult where
  | deqMsg (m : Msg)
  | deqErr (fatal : Bool)
deriving DecidableEq

/-- Whether a dequeue outcome delivered a message. -/
def DeqResult.isMsg : DeqResult → Bool
  | .deqMsg _ => true
  | .deqErr _ => false

/-- The observable effects of one run of the worker handler: errors sent
to the sink (`errors.Send`), invocations of the worker-level callback
(`notifyWorker`, `none` being the no-message invocation on the error
path), tasks handed to the caller's job function, and acknowledgements
attempted. -/
structure WorkerLog where
  errorsSent : Nat
  notes : List (Option Msg)
  jobs : List Task
  acks : Nat
deriving DecidableEq

/-- The handler loop of `Scheduler.Worker(job)` replayed over the queue's
successive dequeue outcomes.  A dequeue error sends the error iff fatal,
invokes the callback with no message when one is configured, and breaks
the loop; a message spawns a unit of work that acknowledges, reports
decode and acknowledgement failures, runs the job on a decoded task, and
invokes the callback with the message. -/
def workerRun (hasNotify : Bool) : List DeqResult → WorkerLog
  | [] => { errorsSent := 0, notes := [], jobs := [], acks := 0 }
  | DeqResult.deqErr fatal :: _ =>
    { errorsSent := if fatal then 1 else 0
      notes := if hasNotify then [none] else []
      jobs := []
      acks := 0 }
  | DeqResult.deqMsg m :: rest =>
    let L := workerRun hasNotify rest
    { errorsSent :=
        (if m.decoded.isNone then 1 else 0) + (if m.ackErr then 1 else 0) + L.errorsSent
      notes := (if hasNotify then [some m] else []) ++ L.notes
      jobs := (match m.decoded with | some tk => [tk] | none => []) ++ L.jobs
      acks := L.acks + 1 }

/-! ## The scheduler as a small-step state machine

`Scheduler.start` runs two loops: the dispatch sweep (lock each task,
evaluate `CanSchedule`, and spawn a unit of work that enqueues, calls
`MarkScheduled`, checks `IsComplete` and hands complete tasks to the
`completed` relay, always unlocking on exit) and the retirement sweep
(drain the relay and delete drained tasks from the ledger).  Each
`Action` below is one atomic slice of those loops or of an in-flight
dispatch unit; `run` executes an arbitrary interleaving. -/

/-- The per-task runtime state held by the ledger: the schedule, the lock
channel's token count, and — when a dispatch unit of work is in flight —
the sweep time `now` that unit captured. -/
structure TaskState where
  sched : TaskSchedule
  lock : Nat
  pendingAt : Option Int
deriving DecidableEq

/-- Ghost history events: a dispatch unit finished `MarkScheduled` and
evaluated `IsComplete` (at clock `t`, with the given outcome), or the
retirement sweep deleted a task from the ledger. -/
inductive Event where
  | dispatched (id : String) (t : Int) (complete : Bool)
  | removed (id : String)
deriving DecidableEq

/-- The scheduler's runtime state: the ledger, the `completed` relay (in
arrival order), the current time, a count of errors handed to the error
sink, and the ghost event history. -/
structure SchedState where
  tasks : String → Option TaskState
  completed : List String
  clock : Int
  errorsSent : Nat
  log : List Event

/-- An atomic slice of scheduler execution. -/
inductive Action where
  | tick (d : Nat)
  | add (t : Task)
  | sweep (id : String)
  | enqueueOk (id : String)
  | enqueueErr (id : String)
  | retire

/-- Point update of the ledger map. -/
def updateLedger (f : String → Option TaskState) (id : String) (ts : TaskState) :
    String → Option TaskState :=
  fun x => if x = id then some ts else f x

/-- One atomic slice of scheduler execution; `none` when the slice's
guard does not hold in the given state.
* `tick d` — time advances by `d` nanoseconds.
* `add t` — one iteration of `Scheduler.Add`: skip an empty id or an id
  already registered, otherwise insert the task.
* `sweep id` — the dispatch sweep reaches `id`: `Lock()`; on failure
  skip; on success evaluate `CanSchedule(now)`: if true the spawned unit
  of work becomes pending (holding the lock and the captured `now`),
  otherwise `Unlock()` immediately.
* `enqueueOk id` — the in-flight unit's `Enqueue` succeeds:
  `MarkScheduled(now)` with the captured `now`, evaluate `IsComplete()`
  at the current clock, hand the task to the `completed` relay iff
  complete, then the deferred `Unlock()`.
* `enqueueErr id` — the in-flight unit's `Enqueue` fails: `errors.Send`,
  no schedule mutation, then the deferred `Unlock()`.
* `retire` — the retirement sweep receives the next task from the relay
  and deletes it from the ledger. -/
def step (parse : RecurrenceParse) (σ : SchedState) : Action → Option SchedState
  | Action.tick d => some { σ with clock := σ.clock + (d : Int) }
  | Action.add t =>
    if t.Id = "" then some σ
    else
      match σ.tasks t.Id with
      | some _ => some σ
      | none =>
        some { σ with
          tasks := updateLedger σ.tasks t.Id
            { sched := t.Schedule, lock := t.lock, pendingAt := none } }
  | Action.sweep id =>
    match σ.tasks id with
    | none => none
    | some ts =>
      if (chanTryRecv ts.lock).1 then
        if CanSchedule parse ts.sched σ.clock then
          some { σ with
            tasks := updateLedger σ.tasks id
              { ts with lock := (chanTryRecv ts.lock).2, pendingAt := some σ.clock } }
        else
          some { σ with
            tasks := updateLedger σ.tasks id
              { ts with lock := chanTrySend (chanTryRecv ts.lock).2 } }
      else some σ
  | Action.enqueueOk id =>
    match σ.tasks id with
    | none => none
    | some ts =>
      match ts.pendingAt with
      | none => none
      | some t0 =>
        some { σ with
          tasks := updateLedger σ.tasks id
            { sched := MarkScheduled ts.sched t0
              lock := chanTrySend ts.lock
              pendingAt := none }
          completed :=
            if IsComplete parse (MarkScheduled ts.sched t0) σ.clock then
              σ.completed ++ [id]
            else σ.completed
          log := σ.log ++
            [Event.dispatched id σ.clock
              (IsComplete parse (MarkScheduled ts.sched t0) σ.clock)] }
  | Action.enqueueErr id =>
    match σ.tasks id with
    | none => none
    | some ts =>
      match ts.pendingAt with
      | none => none
      | some _ =>
        some { σ with
          tasks := updateLedger σ.tasks id
            { sched := ts.sched, lock := chanTrySend ts.lock, pendingAt := none }
          errorsSent := σ.errorsSent + 1 }
  | Action.retire =>
    match σ.completed with
    | [] => none
    | id :: rest =>
      some { σ with
        completed := rest
        tasks := fun x => if x = id then none else σ.tasks x
        log := σ.log ++ [Event.removed id] }

/-- The state `New` constructs: empty ledger, empty relay, nothing yet
reported or logged; the clock starts at the epoch. -/
def initState : SchedState :=
  { tasks := fun _ => none, completed := [], clock := 0, errorsSent := 0, log := [] }

/-- Apply an action, staying put when its guard fails. -/
def stepOr (parse : RecurrenceParse) (σ : SchedState) (a : Action) : SchedState :=
  (step parse σ a).getD σ

/-- Execute an interleaving of scheduler slices from the initial state. -/
def run (parse : RecurrenceParse) (as : List Action) : SchedState :=
  as.foldl (stepOr parse) initState

/-- The reachability invariant of the scheduler: the `completed` relay
holds no duplicates; every task on the relay is still in the ledger, has
no in-flight dispatch unit, and was observed complete by a dispatch unit
at some past clock (recorded in the ghost history); and every dispatch
observation of completeness is either still awaiting retirement on the
relay or has already led to removal. -/
def Inv (parse : RecurrenceParse) (σ : SchedState) : Prop :=
  σ.completed.Nodup ∧
  (∀ id ∈ σ.completed, ∃ ts t, σ.tasks id = some ts ∧ ts.pendingAt = none ∧
    t ≤ σ.clock ∧ IsComplete parse ts.sched t = true ∧
    Event.dispatched id t true ∈ σ.log) ∧
  (∀ id t, Event.dispatched id t true ∈ σ.log →
    id ∈ σ.completed ∨ Event.removed id ∈ σ.log)

/-! ## Concrete fixtures used by witnesses -/

/-- A recurrence library in which no string parses: every rule string is
malformed. -/
def noRule : RecurrenceParse := fun _ => none

/-- A short concrete execution: register a one-shot task, sweep it, and
let its dispatch unit succeed. -/
def demoTrace : List Action :=
  [Action.add (NewTask "a"), Action.sweep "a", Action.enqueueOk "a"]

/-- A task state with a dispatch unit of work in flight (lock held, sweep
time captured). -/
def inFlightTask : TaskState :=
  { sched := { Recurrence := "", Count := 0, UpdatedAt := 0 }
    lock := 0
    pendingAt := some 0 }

/-- A scheduler state in which task `a` has an in-flight dispatch unit. -/
def inFlightState : SchedState :=
  { tasks := fun x => if x = "a" then some inFlightTask else none
    completed := []
    clock := 5
    errorsSent := 0
    log := [] }

/-- A concrete well-formed message. -/
def demoMsg : Msg :=
  { id := "m1", decoded := none, ackErr := false }

/-! ## Helper lemmas -/

/-- Reading the ledger after a point update. -/
theorem updateLedger_apply (f : String → Option TaskState) (id : String)
    (ts : TaskState) (x : String) :
    updateLedger f id ts x = if x = id then some ts else f x := rfl

/-- The token count left by a `Lock` call. -/
theorem Task.Lock_lock (t : Task) : (Task.Lock t).2.lock = t.lock - 1 := by
  show (chanTryRecv t.lock).2 = t.lock - 1
  simp only [chanTryRecv]
  split <;> omega

/-- The token count left by an `Unlock` call: deposits into an empty slot,
drops into a full one. -/
theorem Task.Unlock_lock (t : Task) : (Task.Unlock t).lock = max t.lock 1 := by
  show chanTrySend t.lock = max t.lock 1
  simp only [chanTrySend]
  split <;> omega

/-- A lock buffer that respects the capacity stays within it under any
replayed call sequence. -/
theorem lockRun_le_one (ops : List LockOp) :
    ∀ t : Task, t.lock ≤ 1 → (lockRun t ops).lock ≤ 1 := by
  induction ops with
  | nil => intro t h; exact h
  | cons op ops ih =>
    intro t h
    cases op with
    | lock =>
      apply ih
      rw [Task.Lock_lock]
      omega
    | unlock =>
      apply ih
      rw [Task.Unlock_lock]
      omega

/-- Once `IsComplete` holds at some time, `CanSchedule` is false at that
time and at every later time: completion is terminal for an unchanged
schedule. -/
theorem isComplete_not_canSchedule (parse : RecurrenceParse) (s : TaskSchedule)
    (t now : Int) (hle : t ≤ now) (hc : IsComplete parse s t = true) :
    CanSchedule parse s now = false := by
  unfold IsComplete at hc
  unfold CanSchedule
  split at hc
  next hr =>
    rw [if_pos hr]
    exact decide_eq_false_iff_not.mpr (of_decide_eq_true hc)
  next hr =>
    rw [if_neg hr]
    split at hc
    next rule heq =>
      by_cases hcap : rule.count ≠ 0 ∧ rule.count ≤ s.Count
      · rw [if_pos hcap]
      · rw [if_neg hcap] at hc ⊢
        by_cases hu : rule.untilTime < t
        · rw [if_pos (lt_of_lt_of_le hu hle)]
        · rw [if_neg hu] at hc
          exact absurd hc (by simp)
    next heq => rfl

/-- The invariant holds in the freshly constructed state. -/
theorem inv_init (parse : RecurrenceParse) : Inv parse initState := by
  refine ⟨List.nodup_nil, ?_, ?_⟩
  · intro id hid
    simp [initState] at hid
  · intro id t hid
    simp [initState] at hid

/-- The invariant is preserved by every successful atomic slice. -/
theorem inv_step (parse : RecurrenceParse) (σ : SchedState) (a : Action)
    (σ' : SchedState) (hs : step parse σ a = some σ') (h : Inv parse σ) :
    Inv parse σ' := by
  obtain ⟨hnd, hrel, hdis⟩ := h
  cases a with
  | tick d =>
    simp only [step] at hs
    injection hs with hs
    subst hs
    refine ⟨hnd, ?_, hdis⟩
    intro id hid
    obtain ⟨ts, t, h1, h2, h3, h4, h5⟩ := hrel id hid
    exact ⟨ts, t, h1, h2, le_trans h3 (le_add_of_nonneg_right (Int.ofNat_nonneg d)), h4, h5⟩
  | add t =>
    simp only [step] at hs
    split at hs
    · injection hs with hs; subst hs; exact ⟨hnd, hrel, hdis⟩
    · split at hs
      next heq =>
        injection hs with hs; subst hs; exact ⟨hnd, hrel, hdis⟩
      next heq =>
        injection hs with hs
        subst hs
        refine ⟨hnd, ?_, hdis⟩
        intro id hid
        obtain ⟨ts, t', h1, h2, h3, h4, h5⟩ := hrel id hid
        have hne : id ≠ t.Id := by
          intro he
          rw [he, heq] at h1
          cases h1
        refine ⟨ts, t', ?_, h2, h3, h4, h5⟩
        dsimp only [updateLedger]
        rw [if_neg hne]
        exact h1
  | sweep id0 =>
    simp only [step] at hs
    split at hs
    next heq => cases hs
    next ts heq =>
      split at hs
      next hlk =>
        split at hs
        next hcan =>
          injection hs with hs
          subst hs
          refine ⟨hnd, ?_, hdis⟩
          intro id hid
          obtain ⟨ts0, t', h1, h2, h3, h4, h5⟩ := hrel id hid
          have hne : id ≠ id0 := by
            intro he
            subst he
            rw [heq] at h1
            injection h1 with h1e
            rw [← h1e] at h4
            rw [isComplete_not_canSchedule parse ts.sched t' σ.clock h3 h4] at hcan
            cases hcan
          refine ⟨ts0, t', ?_, h2, h3, h4, h5⟩
          dsimp only [updateLedger]
          rw [if_neg hne]
          exact h1
        next hcan =>
          injection hs with hs
          subst hs
          refine ⟨hnd, ?_, hdis⟩
          intro id hid
          obtain ⟨ts0, t', h1, h2, h3, h4, h5⟩ := hrel id hid
          by_cases hne : id = id0
          · subst hne
            rw [heq] at h1
            injection h1 with h1e
            subst h1e
            refine ⟨{ ts with lock := chanTrySend (chanTryRecv ts.lock).2 }, t', ?_, h2, h3, h4, h5⟩
            dsimp only [updateLedger]
            rw [if_pos rfl]
          · refine ⟨ts0, t', ?_, h2, h3, h4, h5⟩
            dsimp only [updateLedger]
            rw [if_neg hne]
            exact h1
      next hlk =>
        injection hs with hs
        subst hs
        exact ⟨hnd, hrel, hdis⟩
  | enqueueOk id0 =>
    simp only [step] at hs
    split at hs
    next heq => cases hs
    next ts heq =>
      split at hs
      next hpend => cases hs
      next t0 hpend =>
        injection hs with hs
        subst hs
        have hnotmem : id0 ∉ σ.completed := by
          intro hmem
          obtain ⟨ts0, t', h1, h2, -, -, -⟩ := hrel id0 hmem
          rw [heq] at h1
          injection h1 with h1e
          rw [← h1e] at h2
          rw [hpend] at h2
          cases h2
        cases hcomp : IsComplete parse (MarkScheduled ts.sched t0) σ.clock with
        | true =>
          rw [if_pos rfl]
          refine ⟨?_, ?_, ?_⟩ <;> dsimp only
          · exact hnd.append (List.nodup_singleton id0) (List.disjoint_singleton.2 hnotmem)
          · intro id hid
            rw [List.mem_append, List.mem_singleton] at hid
            cases hid with
            | inl hid =>
              obtain ⟨ts0, t', h1, h2, h3, h4, h5⟩ := hrel id hid
              have hne : id ≠ id0 := by
                intro he; subst he; exact hnotmem hid
              refine ⟨ts0, t', ?_, h2, h3, h4, List.mem_append_left _ h5⟩
              dsimp only [updateLedger]
              rw [if_neg hne]
              exact h1
            | inr hid =>
              subst hid
              refine ⟨⟨MarkScheduled ts.sched t0, chanTrySend ts.lock, none⟩,
                σ.clock, ?_, rfl, le_refl _, hcomp, ?_⟩
              · dsimp only [updateLedger]
                rw [if_pos rfl]
              · exact List.mem_append_right _ (List.mem_singleton.mpr rfl)
          · intro id1 t1 hev
            rw [List.mem_append, List.mem_singleton] at hev
            cases hev with
            | inl hev =>
              cases hdis id1 t1 hev with
              | inl hin => exact Or.inl (List.mem_append_left _ hin)
              | inr hrm => exact Or.inr (List.mem_append_left _ hrm)
            | inr hev =>
              injection hev with he1 he2 he3
              subst he1
              exact Or.inl (List.mem_append_right _ (List.mem_singleton.mpr rfl))
        | false =>
          rw [if_neg Bool.false_ne_true]
          refine ⟨hnd, ?_, ?_⟩ <;> dsimp only
          · intro id hid
            obtain ⟨ts0, t', h1, h2, h3, h4, h5⟩ := hrel id hid
            have hne : id ≠ id0 := by
              intro he; subst he; exact hnotmem hid
            refine ⟨ts0, t', ?_, h2, h3, h4, List.mem_append_left _ h5⟩
            dsimp only [updateLedger]
            rw [if_neg hne]
            exact h1
          · intro id1 t1 hev
            rw [List.mem_append, List.mem_singleton] at hev
            cases hev with
            | inl hev =>
              cases hdis id1 t1 hev with
              | inl hin => exact Or.inl hin
              | inr hrm => exact Or.inr (List.mem_append_left _ hrm)
            | inr hev =>
              injection hev with he1 he2 he3
              cases he3
  | enqueueErr id0 =>
    simp only [step] at hs
    split at hs
    next heq => cases hs
    next ts heq =>
      split at hs
      next hpend => cases hs
      next t0 hpend =>
        injection hs with hs
        subst hs
        refine ⟨hnd, ?_, hdis⟩
        intro id hid
        obtain ⟨ts0, t', h1, h2, h3, h4, h5⟩ := hrel id hid
        have hne : id ≠ id0 := by
          intro he
          subst he
          rw [heq] at h1
          injection h1 with h1e
          rw [← h1e] at h2
          rw [hpend] at h2
          cases h2
        refine ⟨ts0, t', ?_, h2, h3, h4, h5⟩
        dsimp only [updateLedger]
        rw [if_neg hne]
        exact h1
  | retire =>
    simp only [step] at hs
    split at hs
    next heq => cases hs
    next id0 rest heq =>
      injection hs with hs
      subst hs
      rw [heq] at hnd
      rw [List.nodup_cons] at hnd
      obtain ⟨hid0, hndr⟩ := hnd
      refine ⟨hndr, ?_, ?_⟩ <;> dsimp only
      · intro id hid
        have hmem : id ∈ σ.completed := by
          rw [heq]
          exact List.mem_cons_of_mem _ hid
        obtain ⟨ts0, t', h1, h2, h3, h4, h5⟩ := hrel id hmem
        have hne : id ≠ id0 := by
          intro he; subst he; exact hid0 hid
        refine ⟨ts0, t', ?_, h2, h3, h4, List.mem_append_left _ h5⟩
        dsimp only
        rw [if_neg hne]
        exact h1
      · intro id1 t1 hev
        rw [List.mem_append, List.mem_singleton] at hev
        cases hev with
        | inl hev =>
          cases hdis id1 t1 hev with
          | inl hin =>
            rw [heq] at hin
            rw [List.mem_cons] at hin
            cases hin with
            | inl he =>
              subst he
              exact Or.inr (List.mem_append_right _ (List.mem_singleton.mpr rfl))
            | inr hin => exact Or.inl hin
          | inr hrm => exact Or.inr (List.mem_append_left _ hrm)
        | inr hev => cases hev

/-- The invariant holds in every reachable state. -/
theorem inv_run (parse : RecurrenceParse) (as : List Action) :
    Inv parse (run parse as) := by
  have key : ∀ σ : SchedState, Inv parse σ → Inv parse (as.foldl (stepOr parse) σ) := by
    induction as with
    | nil => intro σ h; exact h
    | cons a as ih =>
      intro σ h
      apply ih
      unfold stepOr
      cases hs : step parse σ a with
      | none => exact h
      | some σ2 => exact inv_step parse σ a σ2 hs h
  exact key initState (inv_init parse)

/-- No atomic slice other than retirement deletes a ledger entry, and
retirement deletes only a task sitting on the `completed` relay. -/
theorem step_delete_only_from_relay (parse : RecurrenceParse) (σ : SchedState)
    (a : Action) (σ2 : SchedState) (x : String) (tsx : TaskState)
    (hs : step parse σ a = some σ2) (hx : σ.tasks x = some tsx)
    (hx2 : σ2.tasks x = none) : x ∈ σ.completed := by
  cases a with
  | tick d =>
    simp only [step] at hs
    injection hs with hs
    subst hs
    rw [hx] at hx2
    cases hx2
  | add t =>
    simp only [step] at hs
    split at hs
    · injection hs with hs; subst hs; rw [hx] at hx2; cases hx2
    · split at hs
      next heq =>
        injection hs with hs; subst hs; rw [hx] at hx2; cases hx2
      next heq =>
        injection hs with hs
        subst hs
        dsimp only [updateLedger] at hx2
        by_cases hxe : x = t.Id
        · rw [if_pos hxe] at hx2; cases hx2
        · rw [if_neg hxe, hx] at hx2; cases hx2
  | sweep id0 =>
    simp only [step] at hs
    split at hs
    next heq => cases hs
    next ts heq =>
      split at hs
      next hlk =>
        split at hs
        next hcan =>
          injection hs with hs
          subst hs
          dsimp only [updateLedger] at hx2
          by_cases hxe : x = id0
          · rw [if_pos hxe] at hx2; cases hx2
          · rw [if_neg hxe, hx] at hx2; cases hx2
        next hcan =>
          injection hs with hs
          subst hs
          dsimp only [updateLedger] at hx2
          by_cases hxe : x = id0
          · rw [if_pos hxe] at hx2; cases hx2
          · rw [if_neg hxe, hx] at hx2; cases hx2
      next hlk =>
        injection hs with hs
        subst hs
        rw [hx] at hx2
        cases hx2
  | enqueueOk id0 =>
    simp only [step] at hs
    split at hs
    next heq => cases hs
    next ts heq =>
      split at hs
      next hpend => cases hs
      next t0 hpend =>
        injection hs with hs
        subst hs
        dsimp only [updateLedger] at hx2
        by_cases hxe : x = id0
        · rw [if_pos hxe] at hx2; cases hx2
        · rw [if_neg hxe, hx] at hx2; cases hx2
  | enqueueErr id0 =>
    simp only [step] at hs
    split at hs
    next heq => cases hs
    next ts heq =>
      split at hs
      next hpend => cases hs
      next t0 hpend =>
        injection hs with hs
        subst hs
        dsimp only [updateLedger] at hx2
        by_cases hxe : x = id0
        · rw [if_pos hxe] at hx2; cases hx2
        · rw [if_neg hxe, hx] at hx2; cases hx2
  | retire =>
    simp only [step] at hs
    split at hs
    next heq => cases hs
    next id0 rest heq =>
      injection hs with hs
      subst hs
      dsimp only at hx2
      by_cases hxe : x = id0
      · subst hxe
        rw [heq]
        exact List.mem_cons_self _ _
      · rw [if_neg hxe, hx] at hx2
        cases hx2

/-- The worker handler's effects after a dequeue error are independent of
whatever the queue would have returned afterwards: the loop is over. -/
theorem workerRun_stops (hasNotify fatal : Bool) (rest : List DeqResult) :
    ∀ pre : List DeqResult, pre.all DeqResult.isMsg = true →
      workerRun hasNotify (pre ++ DeqResult.deqErr fatal :: rest) =
        workerRun hasNotify (pre ++ [DeqResult.deqErr fatal]) := by
  intro pre
  induction pre with
  | nil => intro _; rfl
  | cons r pre ih =>
    intro hall
    rw [List.all_cons, Bool.and_eq_true] at hall
    obtain ⟨hr, hall⟩ := hall
    cases r with
    | deqErr f => cases hr
    | deqMsg m =>
      show workerRun hasNotify (DeqResult.deqMsg m :: (pre ++ DeqResult.deqErr fatal :: rest)) =
        workerRun hasNotify (DeqResult.deqMsg m :: (pre ++ [DeqResult.deqErr fatal]))
      simp only [workerRun]
      rw [ih hall]

/-! ## The claims -/

/-- C1: for every task built by `NewTask` and every sequence of
`Lock`/`Unlock` calls, the single-slot lock holds exactly zero or one
tokens; a fresh task starts with the token present; `Lock` removes the
token and reports success iff a token was present, never blocking; and an
`Unlock` against an occupied slot drops the insertion, leaving exactly
one token. -/
theorem task_lock_single_slot (id : String) (ops : List LockOp) :
    (NewTask id).lock = 1 ∧
    ((lockRun (NewTask id) ops).lock = 0 ∨ (lockRun (NewTask id) ops).lock = 1) ∧
    (∀ t : Task, (Task.Lock t).1 = decide (0 < t.lock) ∧ (Task.Lock t).2.lock = t.lock - 1) ∧
    (∀ t : Task, (Task.Unlock t).lock = max t.lock 1) := by
  refine ⟨rfl, ?_, ?_, fun t => Task.Unlock_lock t⟩
  · have h := lockRun_le_one ops (NewTask id) (le_refl 1)
    omega
  · intro t
    refine ⟨?_, Task.Lock_lock t⟩
    show (chanTryRecv t.lock).1 = decide (0 < t.lock)
    by_cases h0 : 0 < t.lock
    · simp [chanTryRecv, h0]
    · simp [chanTryRecv, h0]

/-- C2: for a schedule with an empty recurrence string, `CanSchedule now`
is true exactly when the dispatch count is zero and `IsComplete` is true
exactly when it is not, at every time `now` and under every recurrence
library. -/
theorem one_shot_schedulable_complete (parse : RecurrenceParse) (c u now : Int) :
    (CanSchedule parse { Recurrence := "", Count := c, UpdatedAt := u } now = true ↔ c = 0) ∧
    (IsComplete parse { Recurrence := "", Count := c, UpdatedAt := u } now = true ↔ c ≠ 0) := by
  constructor
  · simp [CanSchedule]
  · simp [IsComplete]

/-- C3: for a schedule whose recurrence string is non-empty and fails to
parse, `CanSchedule` fails closed (false at every time) while
`IsComplete` fails open (unconditionally true). -/
theorem invalid_recurrence_fails_closed_open (parse : RecurrenceParse)
    (s : TaskSchedule) (now : Int) (h1 : s.Recurrence ≠ "")
    (h2 : parse s.Recurrence = none) :
    CanSchedule parse s now = false ∧ IsComplete parse s now = true := by
  unfold CanSchedule IsComplete
  rw [if_neg h1, if_neg h1, h2]
  exact ⟨rfl, rfl⟩

/-- Witness for C3 at a concrete malformed rule string. -/
theorem invalid_recurrence_fails_closed_open_witness :
    (({ Recurrence := "FREQ=BOGUS", Count := 0, UpdatedAt := 0 } : TaskSchedule).Recurrence ≠ "" ∧
      noRule ({ Recurrence := "FREQ=BOGUS", Count := 0, UpdatedAt := 0 } : TaskSchedule).Recurrence = none) ∧
    (CanSchedule noRule { Recurrence := "FREQ=BOGUS", Count := 0, UpdatedAt := 0 } 7 = false ∧
      IsComplete noRule { Recurrence := "FREQ=BOGUS", Count := 0, UpdatedAt := 0 } 7 = true) :=
  ⟨⟨by decide, rfl⟩,
    invalid_recurrence_fails_closed_open noRule
      { Recurrence := "FREQ=BOGUS", Count := 0, UpdatedAt := 0 } 7 (by decide) rfl⟩

/-- C4: in every reachable scheduler state, every task on the `completed`
relay (the only source of ledger removals) is still in the ledger, was
observed complete by a dispatch unit of work — after its successful
enqueue and `MarkScheduled`, as recorded in the ghost history — at some
past clock, and from that observation on `CanSchedule` can never again
return true for it; moreover no atomic slice deletes a ledger entry for a
task that is not on the relay. -/
theorem retire_only_tasks_observed_complete (parse : RecurrenceParse)
    (as : List Action) (id : String) (h : id ∈ (run parse as).completed) :
    (∃ ts t, (run parse as).tasks id = some ts ∧ t ≤ (run parse as).clock ∧
      IsComplete parse ts.sched t = true ∧
      Event.dispatched id t true ∈ (run parse as).log ∧
      ∀ now, t ≤ now → CanSchedule parse ts.sched now = false) ∧
    (∀ a σ2 x tsx, step parse (run parse as) a = some σ2 →
      (run parse as).tasks x = some tsx → σ2.tasks x = none →
      x ∈ (run parse as).completed) := by
  obtain ⟨-, hrel, -⟩ := inv_run parse as
  constructor
  · obtain ⟨ts, t, h1, -, h3, h4, h5⟩ := hrel id h
    exact ⟨ts, t, h1, h3, h4, h5,
      fun now hle => isComplete_not_canSchedule parse ts.sched t now hle h4⟩
  · intro a σ2 x tsx hs hx hx2
    exact step_delete_only_from_relay parse (run parse as) a σ2 x tsx hs hx hx2

/-- Witness for C4 on a concrete trace that dispatches a one-shot task to
completion. -/
theorem retire_only_tasks_observed_complete_witness :
    "a" ∈ (run noRule demoTrace).completed ∧
    ((∃ ts t, (run noRule demoTrace).tasks "a" = some ts ∧
        t ≤ (run noRule demoTrace).clock ∧
        IsComplete noRule ts.sched t = true ∧
        Event.dispatched "a" t true ∈ (run noRule demoTrace).log ∧
        ∀ now, t ≤ now → CanSchedule noRule ts.sched now = false) ∧
      (∀ a σ2 x tsx, step noRule (run noRule demoTrace) a = some σ2 →
        (run noRule demoTrace).tasks x = some tsx → σ2.tasks x = none →
        x ∈ (run noRule demoTrace).completed)) :=
  ⟨by decide, retire_only_tasks_observed_complete noRule demoTrace "a" (by decide)⟩

/-- C5: when the in-flight dispatch unit's enqueue fails, the error is
reported to the sink, the task's schedule (count and update time) is
untouched, the task stays in the ledger, nothing reaches the `completed`
relay, and the task's lock is released so the next tick may retry it. -/
theorem enqueue_error_leaves_task_retryable (parse : RecurrenceParse)
    (σ : SchedState) (id : String) (ts : TaskState) (t0 : Int)
    (hts : σ.tasks id = some ts) (hp : ts.pendingAt = some t0)
    (hl : ts.lock = 0) :
    ∃ σ2, step parse σ (Action.enqueueErr id) = some σ2 ∧
      σ2.errorsSent = σ.errorsSent + 1 ∧
      σ2.tasks id = some { sched := ts.sched, lock := 1, pendingAt := none } ∧
      (∀ x, x ≠ id → σ2.tasks x = σ.tasks x) ∧
      σ2.completed = σ.completed ∧
      σ2.log = σ.log ∧
      σ2.clock = σ.clock := by
  refine ⟨{ σ with
      tasks := updateLedger σ.tasks id
        { sched := ts.sched, lock := chanTrySend ts.lock, pendingAt := none }
      errorsSent := σ.errorsSent + 1 }, ?_, rfl, ?_, ?_, rfl, rfl, rfl⟩
  · simp only [step, hts, hp]
  · dsimp only [updateLedger]
    rw [if_pos rfl, hl]
    rfl
  · intro x hx
    dsimp only [updateLedger]
    rw [if_neg hx]

/-- Witness for C5 at a concrete state with an in-flight dispatch. -/
theorem enqueue_error_leaves_task_retryable_witness :
    (inFlightState.tasks "a" = some inFlightTask ∧
      inFlightTask.pendingAt = some 0 ∧ inFlightTask.lock = 0) ∧
    (∃ σ2, step noRule inFlightState (Action.enqueueErr "a") = some σ2 ∧
      σ2.errorsSent = inFlightState.errorsSent + 1 ∧
      σ2.tasks "a" = some { sched := inFlightTask.sched, lock := 1, pendingAt := none } ∧
      (∀ x, x ≠ "a" → σ2.tasks x = inFlightState.tasks x) ∧
      σ2.completed = inFlightState.completed ∧
      σ2.log = inFlightState.log ∧
      σ2.clock = inFlightState.clock) :=
  ⟨⟨rfl, rfl, rfl⟩,
    enqueue_error_leaves_task_retryable noRule inFlightState "a" inFlightTask 0 rfl rfl rfl⟩

/-- C6: `SetRecurrence rfc` returns a bad-request error and leaves the
schedule (recurrence, count, update time) untouched when `rfc` fails to
parse; when `rfc` parses it succeeds and replaces only the recurrence
string — the count and update time are never reset. -/
theorem set_recurrence_validation (parse : RecurrenceParse) (s : TaskSchedule)
    (rfc : String) :
    SetRecurrence parse s rfc =
      (match parse rfc with
       | none => (s, some SchedError.badRequest)
       | some _ => ({ s with Recurrence := rfc }, none)) ∧
    (SetRecurrence parse s rfc).1.Count = s.Count ∧
    (SetRecurrence parse s rfc).1.UpdatedAt = s.UpdatedAt := by
  refine ⟨rfl, ?_, ?_⟩ <;>
    (unfold SetRecurrence; cases parse rfc <;> rfl)

/-- C7: registration via `Add`: an empty id is rejected (ledger
unchanged), an id already present is a no-op that keeps the first
registration and the ledger size, and a fresh non-empty id is inserted
under its id. -/
theorem add_registration_spec (t : Task) (led : List (String × Task)) :
    Add [t] led =
      (if t.Id = "" then led
       else if (led.lookup t.Id).isSome then led
       else (t.Id, t) :: led) ∧
    (Add [t] led).lookup t.Id =
      (if t.Id = "" then led.lookup t.Id
       else
         match led.lookup t.Id with
         | some t0 => some t0
         | none => some t) ∧
    (Add [t] led).length =
      (if t.Id ≠ "" ∧ led.lookup t.Id = none then led.length + 1
       else led.length) := by
  refine ⟨rfl, ?_, ?_⟩
  · show (addTask led t).lookup t.Id = _
    by_cases he : t.Id = ""
    · simp [addTask, he]
    · cases hl : led.lookup t.Id with
      | some t0 => simp [addTask, he, hl]
      | none => simp [addTask, he, hl, List.lookup]
  · show (addTask led t).length = _
    by_cases he : t.Id = ""
    · simp [addTask, he]
    · cases hl : led.lookup t.Id with
      | some t0 => simp [addTask, he, hl]
      | none => simp [addTask, he, hl]

/-- C8: whenever a worker handler's dequeue returns an error, the handler
reports the error to the sink iff it is fatal, invokes the configured
worker-level callback with no message, runs no further jobs or
acknowledgements from that point, and terminates: its effects do not
depend on anything the queue would have produced after the error. -/
theorem worker_halts_on_dequeue_error (hasNotify fatal : Bool)
    (pre rest : List DeqResult) (hpre : pre.all DeqResult.isMsg = true) :
    workerRun hasNotify (pre ++ DeqResult.deqErr fatal :: rest) =
      workerRun hasNotify (pre ++ [DeqResult.deqErr fatal]) ∧
    (workerRun hasNotify [DeqResult.deqErr fatal]).errorsSent =
      (if fatal then 1 else 0) ∧
    (workerRun hasNotify [DeqResult.deqErr fatal]).notes =
      (if hasNotify then [none] else []) ∧
    (workerRun hasNotify [DeqResult.deqErr fatal]).jobs = [] ∧
    (workerRun hasNotify [DeqResult.deqErr fatal]).acks = 0 :=
  ⟨workerRun_stops hasNotify fatal rest pre hpre, rfl, rfl, rfl, rfl⟩

/-- Witness for C8 on a concrete queue history with an error mid-stream. -/
theorem worker_halts_on_dequeue_error_witness :
    [DeqResult.deqMsg demoMsg].all DeqResult.isMsg = true ∧
    (workerRun true ([DeqResult.deqMsg demoMsg] ++ DeqResult.deqErr true :: [DeqResult.deqMsg demoMsg]) =
      workerRun true ([DeqResult.deqMsg demoMsg] ++ [DeqResult.deqErr true]) ∧
    (workerRun true [DeqResult.deqErr true]).errorsSent = (if true then 1 else 0) ∧
    (workerRun true [DeqResult.deqErr true]).notes = (if true then [none] else []) ∧
    (workerRun true [DeqResult.deqErr true]).jobs = [] ∧
    (workerRun true [DeqResult.deqErr true]).acks = 0) :=
  ⟨by decide,
    worker_halts_on_dequeue_error true true [DeqResult.deqMsg demoMsg]
      [DeqResult.deqMsg demoMsg] (by decide)⟩

/-- C9 counterexample: the sweep interval `New` installs is exactly one
millisecond (1000000 nanoseconds), which is not sub-millisecond. -/
theorem default_interval_not_sub_millisecond :
    (New ()).interval = 1000000 ∧ ¬ (New ()).interval < 1000000 :=
  ⟨rfl, by decide⟩

/-- C9 (amended): a scheduler built by `New` defaults its sweep interval
to exactly one millisecond, and both its enqueue and dequeue timeouts to
ten milliseconds. -/
theorem scheduler_default_durations {Q : Type} (queue : Q) :
    (New queue).interval = DefaultInterval ∧ DefaultInterval = 1000000 ∧
    (New queue).enqueueTimeout = DefaultEnqueueTimeout ∧
    DefaultEnqueueTimeout = 10000000 ∧
    (New queue).dequeueTimeout = DefaultDequeueTimeout ∧
    DefaultDequeueTimeout = 10000000 :=
  ⟨rfl, rfl, rfl, rfl, rfl, rfl⟩

/-- C10: `NewTask id` carries the given id, an empty recurrence, a zero
count and a zero update time; hence before any `MarkScheduled` or
`SetRecurrence`, `CanSchedule` is true and `IsComplete` is false at every
time and under every recurrence library. -/
theorem new_task_initial_state (id : String) (parse : RecurrenceParse) (now : Int) :
    (NewTask id).Id = id ∧
    (NewTask id).Schedule = { Recurrence := "", Count := 0, UpdatedAt := 0 } ∧
    CanSchedule parse (NewTask id).Schedule now = true ∧
    IsComplete parse (NewTask id).Schedule now = false := by
  refine ⟨rfl, rfl, ?_, ?_⟩
  · simp [NewTask, Task.Unlock, CanSchedule]
  · simp [NewTask, Task.Unlock, IsComplete]

end Museum
